import Mathlib

/-!
Verification of the GFU `regrid_ll` interpolation engine.

A shallow embedding of `src/apps/regrid_ll.c` (REGRID_LL v0.09) together with
the supporting helpers from `src/common` (ncutils/utils).  Machine floats are
modelled by `ℚ`; a float value that may be NaN/Inf is modelled by `Option ℚ`
(`none` = non-finite).  The external nn-c library calls
(`delaunay_build` + `lpi_build` + `lpi_interpolate_point`) are kept abstract as
a parameter `lpi : List Pt3 → ℚ × ℚ → Option ℚ` (point set of one hemisphere,
query point ↦ interpolated value, `none` = "not covered"/non-finite); the
claims under study do not depend on its internals.  The stereographic
projection values (lines 661-705, via `sin`/`cos`) are likewise inputs of the
model, not recomputed.
-/

namespace Regrid

/-- Pointwise update of a function-represented array (C array assignment). -/
def upd {α : Type} (f : ℕ → α) (i : ℕ) (v : α) : ℕ → α :=
  fun j => if j = i then v else f j

/-- A triangulation input point, `point` of nn-c: planar coordinates plus value
(lines 837-840 and analogues). -/
structure Pt3 where
  x : ℚ
  y : ℚ
  z : ℚ
deriving DecidableEq

/-! ## Grid classification (lines 320-381 for the source grid, 424-477 for the
destination grid) -/

/-- `GRIDTYPE_CURV` / `GRIDTYPE_RECT` / `GRIDTYPE_VECT` (lines 51-54). -/
inductive GridType where
  | curv
  | rect
  | vect
deriving DecidableEq

/-- Destination-grid classification for two 1-dimensional coordinate variables,
line 448: `gridtype = (dimlen[0] != dimlen[1]) ? GRIDTYPE_RECT : GRIDTYPE_VECT;`.
`len0` is the length of the Y (lat) coordinate, `len1` of the X (lon) one. -/
def classifyDst1d (len0 len1 : ℕ) : GridType :=
  if len0 ≠ len1 then GridType.rect else GridType.vect

/-- The horizontal extents `(ni_dst, nj_dst)` assigned in the two branches
(lines 452-453 and 469-470). -/
def dstDims1d (len0 len1 : ℕ) : ℕ × ℕ :=
  if len0 ≠ len1 then (len1, len0) else (len0, 0)

/-! ## Rectangular in-place outer-product expansion (lines 344-367, identical
code at 449-467 for the destination grid)

The C code reads the two 1-D coordinate arrays into the first `ni` (resp. `nj`)
slots of the full `ni*nj` buffers and then broadcasts them in place:

    for (ii = 0, j = 0; j < nj; ++j)            loop X
        for (i = 0; i < ni; ++i, ++ii) x[ii] = x[i];
    for (ii = 0, j = 0; j < nj; ++j, ii += ni)  loop Y2
        y[ii] = y[j];
    for (ii = 0, j = 0; j < nj; ++j)            loop Y3
        for (i = 0; i < ni; ++i, ++ii) y[ii] = y[j * ni];
-/

/-- Loop X above. -/
def expandX (ni nj : ℕ) (x : ℕ → ℚ) : ℕ → ℚ :=
  (List.range nj).foldl
    (fun f j => (List.range ni).foldl (fun g i => upd g (j * ni + i) (g i)) f) x

/-- Loop Y2 above (spread the compact row values out to row starts, in place). -/
def expandY2 (ni nj : ℕ) (y : ℕ → ℚ) : ℕ → ℚ :=
  (List.range nj).foldl (fun f j => upd f (j * ni) (f j)) y

/-- Loop Y3 above (broadcast each row-start value along its row, in place). -/
def expandY3 (ni nj : ℕ) (y : ℕ → ℚ) : ℕ → ℚ :=
  (List.range nj).foldl
    (fun f j => (List.range ni).foldl (fun g i => upd g (j * ni + i) (g (j * ni))) f) y

/-- The full in-place Y expansion as executed (loop Y2 then loop Y3). -/
def rectY (ni nj : ℕ) (y : ℕ → ℚ) : ℕ → ℚ :=
  expandY3 ni nj (expandY2 ni nj y)

/-- The expansion the spec describes (claim side, for comparison): the point at
flat index `j*ni+i` has latitude `Y[j]`. -/
def rectYSpec (ni : ℕ) (y : ℕ → ℚ) : ℕ → ℚ :=
  fun ii => y (ii / ni)

/-! ## Per-layer candidate collection (lines 805-859)

For layer `k`, every source index `i` passes three filters (skip first/last
column, per-column layer count, finite sample) and is then appended to the
south- and north-projection point sets, subject to the finite-projection check
and the near-pole duplicate rule (`POLAR_EPS`, lines 830-858). -/

/-- Constant `POLAR_EPS` (line 56). -/
def polarEps : ℚ := 1 / 10 ^ 10

/-- The near-pole test `hypot(x, y) < POLAR_EPS` on exact rationals, i.e.
`x * x + y * y < polarEps * polarEps`, written in cross-multiplied integer
form over the canonical numerators and (positive) denominators so that the
kernel can evaluate it; the theorem `nearPolar_eq` below proves it equal to
the direct rational comparison. -/
def nearPolar (x y : ℚ) : Bool :=
  decide (100000000000000000000 *
      (x.num * x.num * (y.den : ℤ) * y.den + y.num * y.num * (x.den : ℤ) * x.den) <
    (x.den : ℤ) * x.den * (y.den : ℤ) * y.den)

/-- The layer-independent inputs of the interpolation loop. -/
structure LayerCfg where
  /-- number of source grid nodes (`nij_src`) -/
  nijSrc : ℕ
  /-- row length of the source grid (`ni_src`) -/
  niSrc : ℕ
  /-- option `-s` (line 174-176) -/
  skipFirstLast : Bool
  /-- source per-column valid layer counts; `none` = `nksrc == NULL` -/
  nksrc : Option (ℕ → ℤ)
  /-- south-projection x of source node `i`; `none` = non-finite float -/
  xsrcS : ℕ → Option ℚ
  /-- south-projection y of source node `i` -/
  ysrcS : ℕ → Option ℚ
  /-- north-projection x of source node `i` -/
  xsrcN : ℕ → Option ℚ
  /-- north-projection y of source node `i` -/
  ysrcN : ℕ → Option ℚ
  /-- number of destination grid nodes (`nij_dst`) -/
  nijDst : ℕ
  /-- destination latitudes (`ydst`, kept in degrees for the branch tests) -/
  ydst : ℕ → ℚ
  /-- destination south-projection point (`xdst_south[i], ydst_south[i]`) -/
  pdstS : ℕ → ℚ × ℚ
  /-- destination north-projection point (`xdst_north[i], ydst_north[i]`) -/
  pdstN : ℕ → ℚ × ℚ
  /-- destination per-column valid layer counts; `none` = `nkdst == NULL` -/
  nkdst : Option (ℕ → ℤ)
  /-- option `-m` (line 168-170) -/
  nanfill : Bool
  /-- abstract nn-c triangulation + linear-point-interpolation evaluation -/
  lpi : List Pt3 → ℚ × ℚ → Option ℚ

/-- State of the candidate-collection loop (lines 806-807 and 816-859). -/
structure CollectSt where
  ptsS : List Pt3
  ptsN : List Pt3
  havePolarS : Bool
  havePolarN : Bool
  npoint : ℕ
deriving DecidableEq

/-- Filter (c): `skipfirstlast && (i % ni_src == 0 || i % ni_src == ni_src - 1)`
(line 822). -/
def skipsColumn (skipfl : Bool) (ni i : ℕ) : Bool :=
  skipfl && (decide (i % ni = 0) || decide (i % ni = ni - 1))

/-- Filter (a): `nksrc != NULL && k >= nksrc[i]` (line 825). -/
def maskRejects (nksrc : Option (ℕ → ℤ)) (k i : ℕ) : Bool :=
  match nksrc with
  | none => false
  | some f => decide (f i ≤ (k : ℤ))

/-- South-hemisphere part of one collection step (lines 830-842): append the
sample if both projected coordinates are finite, dropping near-pole duplicates
after the first. -/
def southPart (cfg : LayerCfg) (v : ℚ) (st : CollectSt) (i : ℕ) : CollectSt :=
  match cfg.xsrcS i, cfg.ysrcS i with
  | some x, some y =>
    if nearPolar x y then
      if st.havePolarS then st
      else { st with havePolarS := true, ptsS := st.ptsS ++ [⟨x, y, v⟩] }
    else { st with ptsS := st.ptsS ++ [⟨x, y, v⟩] }
  | _, _ => st

/-- North-hemisphere part of one collection step (lines 844-856). -/
def northPart (cfg : LayerCfg) (v : ℚ) (st : CollectSt) (i : ℕ) : CollectSt :=
  match cfg.xsrcN i, cfg.ysrcN i with
  | some x, some y =>
    if nearPolar x y then
      if st.havePolarN then st
      else { st with havePolarN := true, ptsN := st.ptsN ++ [⟨x, y, v⟩] }
    else { st with ptsN := st.ptsN ++ [⟨x, y, v⟩] }
  | _, _ => st

/-- One iteration of the candidate-collection loop body (lines 816-859). -/
def collectStep (cfg : LayerCfg) (k : ℕ) (vsrc : ℕ → Option ℚ) (st : CollectSt)
    (i : ℕ) : CollectSt :=
  if skipsColumn cfg.skipFirstLast cfg.niSrc i then st
  else if maskRejects cfg.nksrc k i then st
  else
    match vsrc i with
    | none => st
    | some v =>
      let st1 := southPart cfg v st i
      let st2 := northPart cfg v st1 i
      { st2 with npoint := st2.npoint + 1 }

/-- The candidate-collection loop over all source indices. -/
def collect (cfg : LayerCfg) (k : ℕ) (vsrc : ℕ → Option ℚ) : CollectSt :=
  (List.range cfg.nijSrc).foldl (collectStep cfg k vsrc) ⟨[], [], false, false, 0⟩

/-! ## Per-layer destination loop (lines 861-910) -/

/-- Layer fill initialization (lines 861-865): zero under default fill, NaN
under `-m`. -/
def initFill (nanfill : Bool) : Option ℚ :=
  if nanfill then none else some 0

/-- State of the destination loop: the output layer, the carry-down buffer
`vdst_last` (`none` = `NULL`), and the two per-layer counters. -/
structure LayerSt where
  vdst : ℕ → Option ℚ
  carry : Option (ℕ → Option ℚ)
  npointDst : ℕ
  npointFilled : ℕ

/-- Entry `i` of the carry-down buffer, `none` when the buffer is `NULL` or the
entry is NaN. -/
def carryEntry : Option (ℕ → Option ℚ) → ℕ → Option ℚ
  | none, _ => none
  | some f, i => f i

/-- The gate `nkdst == NULL || k < nkdst[i]` (line 886). -/
def gateOpen (cfg : LayerCfg) (k i : ℕ) : Bool :=
  match cfg.nkdst with
  | none => true
  | some f => decide ((k : ℤ) < f i)

/-- The hemisphere-selected interpolation of destination point `i`
(lines 878-884 and 888-891): latitude `> 0` queries the south-projection
triangulation, otherwise the north-projection one. -/
def evalSel (cfg : LayerCfg) (ptsS ptsN : List Pt3) (i : ℕ) : Option ℚ :=
  if 0 < cfg.ydst i then cfg.lpi ptsS (cfg.pdstS i) else cfg.lpi ptsN (cfg.pdstN i)

/-- One iteration of the destination loop body (lines 875-905). -/
def dstStep (cfg : LayerCfg) (k : ℕ) (ptsS ptsN : List Pt3) (st : LayerSt)
    (i : ℕ) : LayerSt :=
  if gateOpen cfg k i then
    match evalSel cfg ptsS ptsN i with
    | some v =>
      { vdst := upd st.vdst i (some v)
        carry := Option.map (fun cf => upd cf i (some v)) st.carry
        npointDst := st.npointDst + 1
        npointFilled := st.npointFilled }
    | none =>
      match carryEntry st.carry i with
      | some w =>
        { vdst := upd st.vdst i (some w)
          carry := st.carry
          npointDst := st.npointDst + 1
          npointFilled := st.npointFilled + 1 }
      | none => { st with npointDst := st.npointDst + 1 }
  else st

/-- One whole layer (lines 805-910): collect candidates, initialize the fill,
shortcut when the candidate set is empty (line 866-867), otherwise run the
destination loop. -/
def processLayer (cfg : LayerCfg) (k : ℕ) (vsrc : ℕ → Option ℚ)
    (carryIn : Option (ℕ → Option ℚ)) : LayerSt :=
  if (collect cfg k vsrc).npoint = 0 then ⟨fun _ => initFill cfg.nanfill, carryIn, 0, 0⟩
  else
    (List.range cfg.nijDst).foldl
      (dstStep cfg k (collect cfg k vsrc).ptsS (collect cfg k vsrc).ptsN)
      ⟨fun _ => initFill cfg.nanfill, carryIn, 0, 0⟩

/-! ## The vertical loop (lines 794-924) -/

/-- The run-level inputs: the per-layer configuration, the raw vertical extent
`nk` (as found in the file, before the `if (nk == 0) nk = 1` at line 802-803),
option `-n`, and the source field by layer. -/
structure RunCfg where
  layer : LayerCfg
  nk : ℕ
  propagatedown : Bool
  vsrcAt : ℕ → ℕ → Option ℚ

/-- Number of executed layer iterations (`if (nk == 0) nk = 1`, line 802-803). -/
def nkEff (cfg : RunCfg) : ℕ := max cfg.nk 1

/-- `vdst_last != NULL`: the carry buffer is allocated exactly when
`nk > 1 && propagatedown` (line 796). -/
def carryActive (cfg : RunCfg) : Bool :=
  decide (1 < cfg.nk) && cfg.propagatedown

/-- Initial carry buffer: every entry NaN (lines 797-799), or `NULL`. -/
def carry0 (cfg : RunCfg) : Option (ℕ → Option ℚ) :=
  if carryActive cfg then some (fun _ => none) else none

/-- The candidate sets of layer `k`. -/
def ptsAt (cfg : RunCfg) (k : ℕ) : CollectSt :=
  collect cfg.layer k (cfg.vsrcAt k)

/-- The carry buffer as it stands when layer `k` begins. -/
def carryAt (cfg : RunCfg) : ℕ → Option (ℕ → Option ℚ)
  | 0 => carry0 cfg
  | k + 1 => (processLayer cfg.layer k (cfg.vsrcAt k) (carryAt cfg k)).carry

/-- The state produced by processing layer `k` in sequence from layer 0. -/
def layerOut (cfg : RunCfg) (k : ℕ) : LayerSt :=
  processLayer cfg.layer k (cfg.vsrcAt k) (carryAt cfg k)

/-- The interpolation outcome of destination point `i` at layer `k`: `some v`
iff the layer was not shortcut as empty, the destination-mask gate was open and
the hemisphere-selected evaluation returned a finite value. -/
def interpAt (cfg : RunCfg) (k i : ℕ) : Option ℚ :=
  if (ptsAt cfg k).npoint = 0 then none
  else if gateOpen cfg.layer k i then
    evalSel cfg.layer (ptsAt cfg k).ptsS (ptsAt cfg k).ptsN i
  else none

/-- The last finite interpolation outcome of point `i` at layers `< k`. -/
def lastFinite (cfg : RunCfg) (i : ℕ) : ℕ → Option ℚ
  | 0 => none
  | k + 1 =>
    match interpAt cfg k i with
    | some v => some v
    | none => lastFinite cfg i k

/-! ## Characterization of the destination loop

The loop touches each destination index exactly once; the lemmas below express
entry `i` of the produced layer and carry buffer in terms of the incoming
state. -/

/-- What the step writes into `vdst[i]`, as a function of the incoming entry
and incoming carry entry. -/
def stepVdst (cfg : LayerCfg) (ptsS ptsN : List Pt3) (i : ℕ)
    (cv ce : Option ℚ) : Option ℚ :=
  match evalSel cfg ptsS ptsN i with
  | some v => some v
  | none =>
    match ce with
    | some w => some w
    | none => cv

/-- What the step leaves in carry entry `i`, as a function of the buffer
presence flag and the incoming carry entry. -/
def stepCarry (cfg : LayerCfg) (ptsS ptsN : List Pt3) (i : ℕ)
    (present : Bool) (ce : Option ℚ) : Option ℚ :=
  match evalSel cfg ptsS ptsN i with
  | some v => if present then some v else none
  | none => ce

/-! ## Output-file lifecycle (lines 511-513, 914, 925)

The pipeline creates the temporary file (`ncw_create`, line 513), writes every
layer to it (`ncu_writefield(fname_dst_tmp, ...)`, line 914) and only then
renames it onto the destination name (`file_rename`, line 925; a POSIX
`rename`, modelled as one atomic action on a path-indexed store, as the spec
describes).  A fatal `quit` truncates this action sequence at an arbitrary
point. -/

/-- File-system actions issued by the pipeline. -/
inductive FsAct where
  | create : String → FsAct
  | writeLayer : String → ℕ → FsAct
  | rename : String → String → FsAct
deriving DecidableEq

/-- Temporary path construction, `strcpy` + `strcat` of lines 511-512. -/
def tmpName (dst : String) : String := dst ++ ".tmp"

/-- The sequence of file-system actions of a complete run writing `nk`
layers. -/
def regridTrace (dst : String) (nk : ℕ) : List FsAct :=
  FsAct.create (tmpName dst) ::
    ((List.range nk).map (fun k => FsAct.writeLayer (tmpName dst) k) ++
      [FsAct.rename (tmpName dst) dst])

/-- A file system: path ↦ content, the content recording the layers written so
far (`none` = no file at that path). -/
def Fs : Type := String → Option (List ℕ)

/-- Semantics of one action. -/
def applyAct (fs : Fs) : FsAct → Fs
  | FsAct.create p => fun q => if q = p then some [] else fs q
  | FsAct.writeLayer p k =>
    fun q => if q = p then Option.map (fun l => l ++ [k]) (fs p) else fs q
  | FsAct.rename a b =>
    fun q => if q = b then fs a else if q = a then none else fs q

/-- Semantics of an action sequence. -/
def applyTrace (fs : Fs) (l : List FsAct) : Fs := l.foldl applyAct fs

/-- Predicate for an action that cannot change the entry of path `dst`. -/
def keepsDst (dst : String) : FsAct → Prop
  | FsAct.create p => p ≠ dst
  | FsAct.writeLayer p _ => p ≠ dst
  | FsAct.rename a b => b ≠ dst ∧ a ≠ dst

/-! ## Mask transfer (lines 715-787)

The block collects the source nodes with `p->z = nksrc[i]` into both
hemisphere point sets (with the near-pole deduplication but no finiteness
filters), builds the two triangulations once, then fills the calloc-zeroed
destination count array. -/

/-- C cast `(int)q`: truncation toward zero. -/
def ctrunc (q : ℚ) : ℤ := if 0 ≤ q then ⌊q⌋ else ⌈q⌉

/-- Rounding of the interpolated count, `(int) (p.z + 0.5)` (line 781). -/
def maskRound (z : ℚ) : ℤ := ctrunc (z + 1 / 2)

/-- One iteration of the destination loop of the mask-transfer block
(lines 768-782): only a finite interpolated value overwrites the
calloc-zeroed entry (lines 780-781).  Here `evalS i` / `evalN i` stand for
`lpi_interpolate_point` on the south / north mask triangulation at destination
point `i`; the hemisphere is selected by `ydst[i] > 0.0` exactly as in the
main loop. -/
def maskStep (ydst : ℕ → ℚ) (evalS evalN : ℕ → Option ℚ) (f : ℕ → ℤ)
    (i : ℕ) : ℕ → ℤ :=
  match (if 0 < ydst i then evalS i else evalN i) with
  | some z => upd f i (maskRound z)
  | none => f

/-- The whole destination loop of the mask-transfer block. -/
def maskLoop (nijDst : ℕ) (ydst : ℕ → ℚ) (evalS evalN : ℕ → Option ℚ) : ℕ → ℤ :=
  (List.range nijDst).foldl (maskStep ydst evalS evalN) (fun _ => 0)

/-! ## Option -t configuration handling (lines 478-482, 715, 745, 757) -/

/-- The only configuration check guarding mask transfer (lines 478-482): the
run aborts iff a destination layer-count variable is supplied together with
`-t`.  No check requires a source layer-count variable. -/
def transferConfigAborts (transfermask nknameDstSupplied : Bool) : Bool :=
  nknameDstSupplied && transfermask

/-- The guard of the mask-transfer block, `transfermask && nkdst == NULL`
(line 715). -/
def maskTransferRuns (transfermask nkdstPresent : Bool) : Bool :=
  transfermask && !nkdstPresent

/-- The value stored into each mask point, `p->z = nksrc[i]` (lines 745, 757):
it requires the source layer-count array; `none` models the `NULL` dereference
performed when option `-gi` carried no such variable. -/
def maskSrcZ (nksrc : Option (ℕ → ℤ)) (i : ℕ) : Option ℤ :=
  match nksrc with
  | none => none
  | some f => some (f i)

/-! ## Claim-side definitions and concrete run configurations -/

/-- Claim-side definition, following the spec text for C6: a purely binary
(0/1) valid-layer array is normalized by replacing every 1 with the total
layer count `nk`.  The v0.09 source contains no such transformation. -/
def specNormalizeBinary (nk n : ℕ) (f : ℕ → ℤ) : ℕ → ℤ :=
  if ∀ i < n, f i = 0 ∨ f i = 1 then fun i => if f i = 1 then (nk : ℤ) else f i
  else f

/-- Y-coordinate data of the C4 failing input: `Y = [10, 20, 30]` for a
`ni = 2`, `nj = 3` rectangular grid. -/
def c4Y : ℕ → ℚ :=
  fun j => if j = 0 then 10 else if j = 1 then 20 else if j = 2 then 30 else 0

/-- Source valid-layer counts of the C6 counterexample: a purely binary mask
`{0, 1}` on two columns. -/
def c6mask : ℕ → ℤ := fun i => if i = 0 then 0 else 1

/-- A minimal layer configuration: one source node with finite sample and
finite, distinguishable projections, one destination node at latitude 5. -/
def cfgBase : LayerCfg where
  nijSrc := 1
  niSrc := 1
  skipFirstLast := false
  nksrc := none
  xsrcS := fun _ => some 1
  ysrcS := fun _ => some 1
  xsrcN := fun _ => some 2
  ysrcN := fun _ => some 2
  nijDst := 1
  ydst := fun _ => 5
  pdstS := fun _ => (1, 1)
  pdstN := fun _ => (2, 2)
  nkdst := none
  nanfill := false
  lpi := fun _ p => some p.1

/-- C1 run: the interpolant returns the queried x-coordinate, so the two
hemisphere triangulations are distinguishable (south projection has x = 1,
north has x = 2). -/
def runC1 : RunCfg where
  layer := cfgBase
  nk := 1
  propagatedown := false
  vsrcAt := fun _ _ => some 3

/-- C3 run: two layers, carry-down requested, default zero fill, and an
interpolant that never covers the destination point. -/
def runC3 : RunCfg where
  layer := { cfgBase with lpi := fun _ _ => none }
  nk := 2
  propagatedown := true
  vsrcAt := fun _ _ => some 4

/-- C7 run: two layers, carry-down requested, default zero fill; layer 0 has a
covered destination (value 7), layer 1 has no valid source sample at all. -/
def runC7 : RunCfg where
  layer := { cfgBase with lpi := fun pts _ => if pts.length = 0 then none else some 7 }
  nk := 2
  propagatedown := true
  vsrcAt := fun k _ => if k = 0 then some 4 else none

/-- C9 configuration: a destination mask closing the single destination column
at every layer, while a carried value exists. -/
def cfgC9 : LayerCfg :=
  { cfgBase with nkdst := some fun _ => 0 }

/-! ## General lemmas -/

@[simp] theorem upd_same {α : Type} (f : ℕ → α) (i : ℕ) (v : α) : upd f i v i = v := by
  simp [upd]

theorem upd_ne {α : Type} (f : ℕ → α) (i j : ℕ) (v : α) (h : j ≠ i) : upd f i v j = f j := by
  simp [upd, h]

@[simp] theorem carryEntry_none (i : ℕ) : carryEntry none i = none := rfl

@[simp] theorem carryEntry_some (f : ℕ → Option ℚ) (i : ℕ) :
    carryEntry (some f) i = f i := rfl

/-- Cross-multiplied form of the near-pole comparison, over abstract
numerators and denominators. -/
theorem cross_form (a c : ℤ) (b d : ℕ) (hb : 0 < b) (hd : 0 < d) :
    (100000000000000000000 * (a * a * (d : ℤ) * d + c * c * (b : ℤ) * b) <
        (b : ℤ) * b * (d : ℤ) * d) ↔
      ((a : ℚ) / (b : ℚ) * ((a : ℚ) / (b : ℚ)) +
          (c : ℚ) / (d : ℚ) * ((c : ℚ) / (d : ℚ)) <
        1 / 10 ^ 10 * (1 / 10 ^ 10)) := by
  have hb0 : (0 : ℚ) < (b : ℚ) := by exact_mod_cast hb
  have hd0 : (0 : ℚ) < (d : ℚ) := by exact_mod_cast hd
  rw [div_mul_div_comm, div_mul_div_comm, div_mul_div_comm,
    div_add_div _ _ (by positivity) (by positivity),
    div_lt_div_iff₀ (by positivity) (by positivity),
    ← Int.cast_lt (R := ℚ)]
  push_cast
  constructor <;> intro h <;> nlinarith [h]

/-- The integer form of `nearPolar` agrees with the direct rational reading of
`hypot(x, y) < POLAR_EPS`, i.e. `x*x + y*y < polarEps * polarEps`. -/
theorem nearPolar_eq (x y : ℚ) :
    nearPolar x y = decide (x * x + y * y < polarEps * polarEps) := by
  unfold nearPolar polarEps
  rw [decide_eq_decide,
    cross_form x.num y.num x.den y.den x.den_pos y.den_pos,
    Rat.num_div_den, Rat.num_div_den]

theorem dstStep_carry_isSome (cfg : LayerCfg) (k : ℕ) (ptsS ptsN : List Pt3)
    (st : LayerSt) (j : ℕ) :
    (dstStep cfg k ptsS ptsN st j).carry.isSome = st.carry.isSome := by
  unfold dstStep
  split
  · cases he : evalSel cfg ptsS ptsN j with
    | some v => cases st.carry <;> simp
    | none => cases hc : carryEntry st.carry j <;> simp
  · rfl

theorem dstStep_gate_closed (cfg : LayerCfg) (k : ℕ) (ptsS ptsN : List Pt3)
    (st : LayerSt) (j : ℕ) (hg : gateOpen cfg k j = false) :
    dstStep cfg k ptsS ptsN st j = st := by
  unfold dstStep
  simp [hg]

theorem dstStep_vdst_ne (cfg : LayerCfg) (k : ℕ) (ptsS ptsN : List Pt3)
    (st : LayerSt) (j i : ℕ) (hji : i ≠ j) :
    (dstStep cfg k ptsS ptsN st j).vdst i = st.vdst i := by
  unfold dstStep
  split
  · cases he : evalSel cfg ptsS ptsN j with
    | some v => simp [upd_ne _ _ _ _ hji]
    | none =>
      cases hc : carryEntry st.carry j with
      | some w => simp [hc, upd_ne _ _ _ _ hji]
      | none => simp [hc]
  · rfl

theorem dstStep_carryEntry_ne (cfg : LayerCfg) (k : ℕ) (ptsS ptsN : List Pt3)
    (st : LayerSt) (j i : ℕ) (hji : i ≠ j) :
    carryEntry (dstStep cfg k ptsS ptsN st j).carry i = carryEntry st.carry i := by
  unfold dstStep
  split
  · cases he : evalSel cfg ptsS ptsN j with
    | some v =>
      cases st.carry with
      | none => rfl
      | some cf => simp [carryEntry, upd_ne _ _ _ _ hji]
    | none =>
      cases hc : carryEntry st.carry j with
      | some w => simp [hc]
      | none => simp [hc]
  · rfl

/-- Entries of index `i` survive a stretch of the loop that never processes `i`
with an open gate. -/
theorem foldl_entry_pres (cfg : LayerCfg) (k : ℕ) (ptsS ptsN : List Pt3)
    (i : ℕ) (l : List ℕ) (st : LayerSt)
    (h : ∀ j ∈ l, j = i → gateOpen cfg k i = false) :
    (l.foldl (dstStep cfg k ptsS ptsN) st).vdst i = st.vdst i ∧
    carryEntry (l.foldl (dstStep cfg k ptsS ptsN) st).carry i =
      carryEntry st.carry i := by
  induction l generalizing st with
  | nil => exact ⟨rfl, rfl⟩
  | cons j l ih =>
    have h1 : (dstStep cfg k ptsS ptsN st j).vdst i = st.vdst i ∧
        carryEntry (dstStep cfg k ptsS ptsN st j).carry i = carryEntry st.carry i := by
      by_cases hj : j = i
      · subst hj
        rw [dstStep_gate_closed cfg k ptsS ptsN st j (h j (List.mem_cons_self j l) rfl)]
        exact ⟨rfl, rfl⟩
      · exact ⟨dstStep_vdst_ne cfg k ptsS ptsN st j i (Ne.symm hj),
          dstStep_carryEntry_ne cfg k ptsS ptsN st j i (Ne.symm hj)⟩
    have h2 := ih (dstStep cfg k ptsS ptsN st j)
      (fun x hx => h x (List.mem_cons_of_mem _ hx))
    rw [List.foldl_cons]
    exact ⟨h2.1.trans h1.1, h2.2.trans h1.2⟩

theorem foldl_carry_isSome (cfg : LayerCfg) (k : ℕ) (ptsS ptsN : List Pt3)
    (l : List ℕ) (st : LayerSt) :
    (l.foldl (dstStep cfg k ptsS ptsN) st).carry.isSome = st.carry.isSome := by
  induction l generalizing st with
  | nil => rfl
  | cons j l ih =>
    rw [List.foldl_cons, ih]
    exact dstStep_carry_isSome cfg k ptsS ptsN st j

/-- Entry `i` of the state produced when processing index `i` with an open
gate. -/
theorem dstStep_self (cfg : LayerCfg) (k : ℕ) (ptsS ptsN : List Pt3)
    (st : LayerSt) (i : ℕ) (hg : gateOpen cfg k i = true) :
    (dstStep cfg k ptsS ptsN st i).vdst i =
      stepVdst cfg ptsS ptsN i (st.vdst i) (carryEntry st.carry i) ∧
    carryEntry (dstStep cfg k ptsS ptsN st i).carry i =
      stepCarry cfg ptsS ptsN i st.carry.isSome (carryEntry st.carry i) := by
  unfold dstStep stepVdst stepCarry
  rw [hg]
  simp only [if_true]
  cases he : evalSel cfg ptsS ptsN i with
  | some v =>
    cases st.carry with
    | none => simp [carryEntry]
    | some cf => simp [carryEntry]
  | none =>
    cases hc : carryEntry st.carry i with
    | some w => simp [hc]
    | none => simp [hc]

/-- The main loop characterization: index `i` is processed exactly once. -/
theorem foldl_entry_mem (cfg : LayerCfg) (k : ℕ) (ptsS ptsN : List Pt3)
    (i : ℕ) (l : List ℕ) (st : LayerSt) (hnd : l.Nodup) (hmem : i ∈ l)
    (hg : gateOpen cfg k i = true) :
    (l.foldl (dstStep cfg k ptsS ptsN) st).vdst i =
      stepVdst cfg ptsS ptsN i (st.vdst i) (carryEntry st.carry i) ∧
    carryEntry (l.foldl (dstStep cfg k ptsS ptsN) st).carry i =
      stepCarry cfg ptsS ptsN i st.carry.isSome (carryEntry st.carry i) := by
  induction l generalizing st with
  | nil => cases hmem
  | cons j l ih =>
    rcases List.mem_cons.mp hmem with hj | hmem2
    · subst hj
      have hnotmem : i ∉ l := (List.nodup_cons.mp hnd).1
      have hpres := foldl_entry_pres cfg k ptsS ptsN i l
        (dstStep cfg k ptsS ptsN st i)
        (fun x hx hxi => absurd (hxi ▸ hx) hnotmem)
      have hself := dstStep_self cfg k ptsS ptsN st i hg
      rw [List.foldl_cons]
      exact ⟨hpres.1.trans hself.1, hpres.2.trans hself.2⟩
    · have hji : j ≠ i := by
        intro h
        exact (List.nodup_cons.mp hnd).1 (h ▸ hmem2)
      have hv := dstStep_vdst_ne cfg k ptsS ptsN st j i (Ne.symm hji)
      have hc := dstStep_carryEntry_ne cfg k ptsS ptsN st j i (Ne.symm hji)
      have hs := dstStep_carry_isSome cfg k ptsS ptsN st j
      have h2 := ih (dstStep cfg k ptsS ptsN st j) (List.nodup_cons.mp hnd).2 hmem2
      rw [List.foldl_cons]
      rw [hv, hc, hs] at h2
      exact h2

theorem dstStep_npointDst (cfg : LayerCfg) (k : ℕ) (ptsS ptsN : List Pt3)
    (st : LayerSt) (j : ℕ) :
    (dstStep cfg k ptsS ptsN st j).npointDst =
      st.npointDst + (if gateOpen cfg k j = true then 1 else 0) := by
  unfold dstStep
  split
  · cases he : evalSel cfg ptsS ptsN j with
    | some v => rfl
    | none => cases hc : carryEntry st.carry j <;> simp [hc]
  · rename_i hgate
    simp [hgate]

theorem foldl_npointDst (cfg : LayerCfg) (k : ℕ) (ptsS ptsN : List Pt3)
    (l : List ℕ) (st : LayerSt) :
    (l.foldl (dstStep cfg k ptsS ptsN) st).npointDst =
      st.npointDst + l.countP (fun j => gateOpen cfg k j) := by
  induction l generalizing st with
  | nil => simp
  | cons j l ih =>
    rw [List.foldl_cons, ih, dstStep_npointDst, List.countP_cons]
    cases hg : gateOpen cfg k j
    · simp only [hg, Bool.false_eq_true, if_false]
      omega
    · simp only [hg, if_true]
      omega

/-! ## Layer-level characterization -/

theorem processLayer_empty (cfg : LayerCfg) (k : ℕ) (vsrc : ℕ → Option ℚ)
    (carryIn : Option (ℕ → Option ℚ)) (h : (collect cfg k vsrc).npoint = 0) :
    processLayer cfg k vsrc carryIn =
      ⟨fun _ => initFill cfg.nanfill, carryIn, 0, 0⟩ := by
  unfold processLayer
  rw [if_pos h]

theorem processLayer_carry_isSome (cfg : LayerCfg) (k : ℕ) (vsrc : ℕ → Option ℚ)
    (carryIn : Option (ℕ → Option ℚ)) :
    (processLayer cfg k vsrc carryIn).carry.isSome = carryIn.isSome := by
  unfold processLayer
  split
  · rfl
  · exact foldl_carry_isSome cfg k _ _ _ _

/-- Entry `i` of the layer and carry buffer when the destination-mask gate of
`i` is closed: the fill initialization survives and the carry entry is
untouched. -/
theorem processLayer_closed (cfg : LayerCfg) (k : ℕ) (vsrc : ℕ → Option ℚ)
    (carryIn : Option (ℕ → Option ℚ)) (i : ℕ)
    (hg : gateOpen cfg k i = false) :
    (processLayer cfg k vsrc carryIn).vdst i = initFill cfg.nanfill ∧
    carryEntry (processLayer cfg k vsrc carryIn).carry i = carryEntry carryIn i := by
  unfold processLayer
  split
  · exact ⟨rfl, rfl⟩
  · exact foldl_entry_pres cfg k _ _ i _ _ (fun j _ hji => hji ▸ hg)

/-- Entry `i` of the layer and carry buffer in the generic case (gate open,
candidate set nonempty). -/
theorem processLayer_open (cfg : LayerCfg) (k : ℕ) (vsrc : ℕ → Option ℚ)
    (carryIn : Option (ℕ → Option ℚ)) (i : ℕ) (hi : i < cfg.nijDst)
    (hne : (collect cfg k vsrc).npoint ≠ 0) (hg : gateOpen cfg k i = true) :
    (processLayer cfg k vsrc carryIn).vdst i =
      stepVdst cfg (collect cfg k vsrc).ptsS (collect cfg k vsrc).ptsN i
        (initFill cfg.nanfill) (carryEntry carryIn i) ∧
    carryEntry (processLayer cfg k vsrc carryIn).carry i =
      stepCarry cfg (collect cfg k vsrc).ptsS (collect cfg k vsrc).ptsN i
        carryIn.isSome (carryEntry carryIn i) := by
  unfold processLayer
  rw [if_neg hne]
  exact foldl_entry_mem cfg k _ _ i _ _ (List.nodup_range cfg.nijDst)
    (List.mem_range.mpr hi) hg

theorem processLayer_npointDst (cfg : LayerCfg) (k : ℕ) (vsrc : ℕ → Option ℚ)
    (carryIn : Option (ℕ → Option ℚ)) :
    (processLayer cfg k vsrc carryIn).npointDst =
      if (collect cfg k vsrc).npoint = 0 then 0
      else (List.range cfg.nijDst).countP (fun j => gateOpen cfg k j) := by
  unfold processLayer
  split
  · rfl
  · rw [foldl_npointDst]
    simp

/-! ## Carry-buffer evolution across layers -/

theorem carryAt_isSome (cfg : RunCfg) (k : ℕ) :
    (carryAt cfg k).isSome = carryActive cfg := by
  induction k with
  | zero =>
    unfold carryAt carry0
    split <;> simp_all
  | succ k ih =>
    unfold carryAt
    rw [processLayer_carry_isSome]
    exact ih

theorem carryAt_of_inactive (cfg : RunCfg) (h : carryActive cfg = false) (k : ℕ) :
    carryAt cfg k = none := by
  have := carryAt_isSome cfg k
  rw [h] at this
  exact Option.not_isSome_iff_eq_none.mp (by rw [this]; exact Bool.false_ne_true)

/-- Pointwise evolution of the carry buffer: entry `i` after layer `k` is the
finite interpolation outcome of layer `k` if there was one, else the previous
entry. -/
theorem carryAt_succ_entry (cfg : RunCfg) (k i : ℕ) (hi : i < cfg.layer.nijDst) :
    carryEntry (carryAt cfg (k + 1)) i =
      match interpAt cfg k i with
      | some v => if carryActive cfg = true then some v else none
      | none => carryEntry (carryAt cfg k) i := by
  show carryEntry (processLayer cfg.layer k (cfg.vsrcAt k) (carryAt cfg k)).carry i = _
  by_cases hemp : (ptsAt cfg k).npoint = 0
  · rw [processLayer_empty cfg.layer k (cfg.vsrcAt k) (carryAt cfg k) hemp]
    unfold interpAt
    rw [if_pos hemp]
  · by_cases hg : gateOpen cfg.layer k i = true
    · have hchar := (processLayer_open cfg.layer k (cfg.vsrcAt k) (carryAt cfg k)
        i hi hemp hg).2
      rw [hchar]
      unfold stepCarry interpAt
      rw [if_neg hemp, if_pos hg, carryAt_isSome]
      rfl
    · have hg2 : gateOpen cfg.layer k i = false := by
        cases hgv : gateOpen cfg.layer k i
        · rfl
        · exact absurd hgv hg
      have hchar := (processLayer_closed cfg.layer k (cfg.vsrcAt k) (carryAt cfg k)
        i hg2).2
      rw [hchar]
      unfold interpAt
      rw [if_neg hemp, if_neg (by rw [hg2]; exact Bool.false_ne_true)]

/-- Under an active carry buffer, entry `i` before layer `k` is exactly the
last finite interpolation outcome of point `i` at the earlier layers. -/
theorem carryAt_lastFinite (cfg : RunCfg) (hact : carryActive cfg = true)
    (i : ℕ) (hi : i < cfg.layer.nijDst) (k : ℕ) :
    carryEntry (carryAt cfg k) i = lastFinite cfg i k := by
  induction k with
  | zero =>
    unfold carryAt carry0 lastFinite
    rw [if_pos hact]
    rfl
  | succ k ih =>
    rw [carryAt_succ_entry cfg k i hi]
    unfold lastFinite
    cases hint : interpAt cfg k i with
    | some v => simp [hact]
    | none => simpa using ih

/-! ## Output-file lifecycle: proofs -/

/-- Appending `".tmp"` always changes the name. -/
theorem tmpName_ne (dst : String) : tmpName dst ≠ dst := by
  intro h
  have hlen := congrArg String.length h
  rw [tmpName, String.length_append] at hlen
  have h4 : String.length ".tmp" = 4 := rfl
  omega

theorem applyAct_keeps (dst : String) (fs : Fs) (a : FsAct) (h : keepsDst dst a) :
    applyAct fs a dst = fs dst := by
  cases a with
  | create p => simp [applyAct, keepsDst] at h ⊢; intro hc; exact absurd hc.symm h
  | writeLayer p k => simp [applyAct, keepsDst] at h ⊢; intro hc; exact absurd hc.symm h
  | rename x b =>
    simp only [applyAct, keepsDst] at h ⊢
    rw [if_neg (fun hc => h.1 hc.symm), if_neg (fun hc => h.2 hc.symm)]

theorem applyTrace_keeps (dst : String) (l : List FsAct)
    (h : ∀ a ∈ l, keepsDst dst a) (fs : Fs) : applyTrace fs l dst = fs dst := by
  induction l generalizing fs with
  | nil => rfl
  | cons a l ih =>
    show applyTrace (applyAct fs a) l dst = fs dst
    rw [ih (fun x hx => h x (List.mem_cons_of_mem _ hx)),
      applyAct_keeps dst fs a (h a (List.mem_cons_self a l))]

/-- A prefix of `l ++ [r]` is the whole list or a prefix of `l`. -/
theorem prefix_concat_cases {α : Type} (pre l : List α) (r : α)
    (h : pre <+: l ++ [r]) : pre = l ++ [r] ∨ pre <+: l := by
  obtain ⟨t, ht⟩ := h
  cases t with
  | nil => left; simpa using ht
  | cons t0 ts =>
    right
    have hlen : pre.length ≤ l.length := by
      have hl := congrArg List.length ht
      simp [List.length_append] at hl
      omega
    have hpre2 : pre <+: l ++ [r] := ⟨t0 :: ts, ht⟩
    have htake := List.prefix_iff_eq_take.mp hpre2
    rw [htake, List.take_append_eq_append_take,
      Nat.sub_eq_zero_of_le hlen, List.take_zero, List.append_nil]
    exact List.take_prefix pre.length l

/-- Every action before the final rename touches only the temporary path. -/
theorem regridTrace_front_keeps (dst : String) (nk : ℕ) (a : FsAct)
    (ha : a ∈ FsAct.create (tmpName dst) ::
      (List.range nk).map (fun k => FsAct.writeLayer (tmpName dst) k)) :
    keepsDst dst a := by
  rcases List.mem_cons.mp ha with h | h
  · subst h
    exact tmpName_ne dst
  · obtain ⟨k, _, hk⟩ := List.mem_map.mp h
    subst hk
    exact tmpName_ne dst

/-! ## Mask-transfer rounding -/

theorem maskRound_bounds (z : ℚ) (n : ℕ) (hlo : -(3 / 2) < z)
    (hhi : z < (n : ℚ) + 1 / 2) : 0 ≤ maskRound z ∧ maskRound z ≤ (n : ℤ) := by
  unfold maskRound ctrunc
  by_cases h0 : 0 ≤ z + 1 / 2
  · rw [if_pos h0]
    refine ⟨Int.floor_nonneg.mpr h0, ?_⟩
    have hlt : ⌊z + 1 / 2⌋ < (n : ℤ) + 1 := by
      rw [Int.floor_lt]
      push_cast
      linarith
    omega
  · rw [if_neg h0]
    have hc : ⌈z + 1 / 2⌉ = 0 := by
      rw [Int.ceil_eq_zero_iff]
      exact Set.mem_Ioc.mpr ⟨by linarith, le_of_lt (not_le.mp h0)⟩
    rw [hc]
    exact ⟨le_refl 0, Int.natCast_nonneg n⟩

theorem maskFold_uncovered (ydst : ℕ → ℚ) (evalS evalN : ℕ → Option ℚ) (i : ℕ)
    (h : (if 0 < ydst i then evalS i else evalN i) = none) (l : List ℕ) :
    ∀ f : ℕ → ℤ, l.foldl (maskStep ydst evalS evalN) f i = f i := by
  induction l with
  | nil => intro f; rfl
  | cons j l ih =>
    intro f
    rw [List.foldl_cons, ih]
    unfold maskStep
    by_cases hji : i = j
    · subst hji
      rw [h]
    · cases he : (if 0 < ydst j then evalS j else evalN j) with
      | none => rfl
      | some z => exact upd_ne f j i _ hji

theorem maskFold_bounds (ydst : ℕ → ℚ) (evalS evalN : ℕ → Option ℚ) (n : ℕ)
    (hband : ∀ i z, (if 0 < ydst i then evalS i else evalN i) = some z →
      -(3 / 2) < z ∧ z < (n : ℚ) + 1 / 2) (l : List ℕ) :
    ∀ f : ℕ → ℤ, (∀ j, 0 ≤ f j ∧ f j ≤ (n : ℤ)) →
      ∀ j, 0 ≤ l.foldl (maskStep ydst evalS evalN) f j ∧
        l.foldl (maskStep ydst evalS evalN) f j ≤ (n : ℤ) := by
  induction l with
  | nil => intro f hf; exact hf
  | cons i l ih =>
    intro f hf
    rw [List.foldl_cons]
    apply ih
    intro j
    unfold maskStep
    cases he : (if 0 < ydst i then evalS i else evalN i) with
    | none => exact hf j
    | some z =>
      dsimp only
      by_cases hji : j = i
      · subst hji
        rw [upd_same]
        exact maskRound_bounds z n (hband j z he).1 (hband j z he).2
      · rw [upd_ne f i j _ hji]
        exact hf j

/-! ## Claim theorems -/

/-- C1 (amended): for every destination point the per-layer loop evaluates
exactly one hemisphere triangulation, chosen by the sign of its own latitude;
but the assignment is the reverse of the claim: latitude strictly positive
queries the triangulation built from the south-centered (equator-reflected)
projections, latitude `≤ 0` — including exactly 0, deterministically — queries
the one built from the north-centered (unreflected) projections; the stored
layer value is fully determined by that single query, so no point is evaluated
by both branches in the same run. -/
theorem C1_hemisphere_selection (cfg : RunCfg) (k i : ℕ)
    (hi : i < cfg.layer.nijDst) (hne : (ptsAt cfg k).npoint ≠ 0)
    (hg : gateOpen cfg.layer k i = true) :
    (0 < cfg.layer.ydst i →
      (layerOut cfg k).vdst i =
        match cfg.layer.lpi (ptsAt cfg k).ptsS (cfg.layer.pdstS i) with
        | some v => some v
        | none =>
          match carryEntry (carryAt cfg k) i with
          | some w => some w
          | none => initFill cfg.layer.nanfill) ∧
    (cfg.layer.ydst i ≤ 0 →
      (layerOut cfg k).vdst i =
        match cfg.layer.lpi (ptsAt cfg k).ptsN (cfg.layer.pdstN i) with
        | some v => some v
        | none =>
          match carryEntry (carryAt cfg k) i with
          | some w => some w
          | none => initFill cfg.layer.nanfill) := by
  have hchar := (processLayer_open cfg.layer k (cfg.vsrcAt k) (carryAt cfg k)
    i hi hne hg).1
  constructor
  · intro hpos
    show (processLayer cfg.layer k (cfg.vsrcAt k) (carryAt cfg k)).vdst i = _
    rw [hchar]
    unfold stepVdst evalSel
    rw [if_pos hpos]
    simp only [ptsAt]
  · intro hle
    show (processLayer cfg.layer k (cfg.vsrcAt k) (carryAt cfg k)).vdst i = _
    rw [hchar]
    unfold stepVdst evalSel
    rw [if_neg (not_lt.mpr hle)]
    simp only [ptsAt]

/-- C1 counterexample: with an interpolant that returns the x-coordinate of
the query point (south projection of the destination point has x = 1, north
has x = 2), the destination point at latitude 5 (so latitude `≥ 0`) receives
the south-triangulation value 1, not the north-built value 2 demanded by the
claim. -/
theorem C1_counterexample :
    (0 : ℚ) ≤ runC1.layer.ydst 0 ∧
    (layerOut runC1 0).vdst 0 = some 1 ∧
    runC1.layer.lpi (ptsAt runC1 0).ptsN (runC1.layer.pdstN 0) = some 2 ∧
    (layerOut runC1 0).vdst 0 ≠
      runC1.layer.lpi (ptsAt runC1 0).ptsN (runC1.layer.pdstN 0) := by
  decide

/-- C1 witness: the amended selection theorem applied to the concrete run. -/
theorem C1_hemisphere_selection_witness :
    (layerOut runC1 0).vdst 0 =
      match runC1.layer.lpi (ptsAt runC1 0).ptsS (runC1.layer.pdstS 0) with
      | some v => some v
      | none =>
        match carryEntry (carryAt runC1 0) 0 with
        | some w => some w
        | none => initFill runC1.layer.nanfill :=
  (C1_hemisphere_selection runC1 0 0 (by decide) (by decide) (by decide)).1
    (by decide)

/-- C2 (confirmed): every layer write of a run targets the temporary path (the
destination name with ".tmp" appended); the rename onto the final name is the
last action of the run, coming after the writes of all layers `0..nk-1`; and a
run truncated before writing every layer leaves the entry at the final
destination name unchanged. -/
theorem C2_atomic_output (dst : String) (nk : ℕ) :
    (∀ p j, FsAct.writeLayer p j ∈ regridTrace dst nk → p = tmpName dst ∧ j < nk) ∧
    (regridTrace dst nk).getLast? = some (FsAct.rename (tmpName dst) dst) ∧
    (∀ j, j < nk → FsAct.writeLayer (tmpName dst) j ∈ (regridTrace dst nk).dropLast) ∧
    (∀ pre, pre <+: regridTrace dst nk →
      (∃ j, j < nk ∧ FsAct.writeLayer (tmpName dst) j ∉ pre) →
      ∀ fs : Fs, applyTrace fs pre dst = fs dst) := by
  have heq : regridTrace dst nk =
      (FsAct.create (tmpName dst) ::
        (List.range nk).map (fun j => FsAct.writeLayer (tmpName dst) j)) ++
        [FsAct.rename (tmpName dst) dst] := by
    unfold regridTrace
    rw [List.cons_append]
  refine ⟨?_, ?_, ?_, ?_⟩
  · intro p j hmem
    rw [heq] at hmem
    rcases List.mem_append.mp hmem with hmem | hmem
    · rcases List.mem_cons.mp hmem with hmem | hmem
      · cases hmem
      · obtain ⟨j0, hj0, hj0eq⟩ := List.mem_map.mp hmem
        cases hj0eq
        exact ⟨rfl, List.mem_range.mp hj0⟩
    · rcases List.mem_cons.mp hmem with hmem | hmem
      · cases hmem
      · cases hmem
  · rw [heq]
    exact List.getLast?_concat _
  · intro j hj
    rw [heq, List.dropLast_concat]
    exact List.mem_cons_of_mem _
      (List.mem_map.mpr ⟨j, List.mem_range.mpr hj, rfl⟩)
  · intro pre hpre hmiss fs
    rw [heq] at hpre
    rcases prefix_concat_cases pre _ _ hpre with hfull | hpref
    · obtain ⟨j, hj, hnot⟩ := hmiss
      exact absurd (hfull ▸ List.mem_append_left _ (List.mem_cons_of_mem _
        (List.mem_map.mpr ⟨j, List.mem_range.mpr hj, rfl⟩))) hnot
    · exact applyTrace_keeps dst pre
        (fun a ha => regridTrace_front_keeps dst nk a (hpref.sublist.subset ha)) fs

/-- C2 witness: a run over two layers truncated after the create and the first
layer write leaves an initially absent destination absent. -/
theorem C2_atomic_output_witness :
    [FsAct.create (tmpName "out.nc"), FsAct.writeLayer (tmpName "out.nc") 0] <+:
      regridTrace "out.nc" 2 ∧
    applyTrace (fun _ => none)
      [FsAct.create (tmpName "out.nc"), FsAct.writeLayer (tmpName "out.nc") 0]
      "out.nc" = none := by
  have hpre : [FsAct.create (tmpName "out.nc"),
      FsAct.writeLayer (tmpName "out.nc") 0] <+: regridTrace "out.nc" 2 :=
    ⟨[FsAct.writeLayer (tmpName "out.nc") 1,
      FsAct.rename (tmpName "out.nc") "out.nc"], rfl⟩
  exact ⟨hpre, (C2_atomic_output "out.nc" 2).2.2.2 _ hpre
    ⟨1, by decide, by decide⟩ (fun _ => none)⟩

/-- C3 (amended): at a destination point the triangulation could not cover
(while the layer had candidates and the mask gate was open), the stored value
is: with the carry buffer active (`nk > 1` and option `-n`), the last finite
interpolation outcome of an earlier layer, falling back to the base fill
initialization (0 by default, missing under `-m`) when no earlier layer
produced one — in particular layer 0 receives the finite value 0 under the
default fill; with the carry buffer inactive (single layer or no `-n`), always
the base fill initialization. -/
theorem C3_propagate_down (cfg : RunCfg) (k i : ℕ) (hi : i < cfg.layer.nijDst)
    (hne : (ptsAt cfg k).npoint ≠ 0) (hg : gateOpen cfg.layer k i = true)
    (hunc : evalSel cfg.layer (ptsAt cfg k).ptsS (ptsAt cfg k).ptsN i = none) :
    (layerOut cfg k).vdst i =
      if carryActive cfg = true then
        match lastFinite cfg i k with
        | some w => some w
        | none => initFill cfg.layer.nanfill
      else initFill cfg.layer.nanfill := by
  have hchar := (processLayer_open cfg.layer k (cfg.vsrcAt k) (carryAt cfg k)
    i hi hne hg).1
  simp only [ptsAt] at hunc
  show (processLayer cfg.layer k (cfg.vsrcAt k) (carryAt cfg k)).vdst i = _
  rw [hchar]
  unfold stepVdst
  rw [hunc]
  cases hact : carryActive cfg with
  | true =>
    rw [if_pos rfl, carryAt_lastFinite cfg hact i hi k]
  | false =>
    rw [if_neg Bool.false_ne_true, carryAt_of_inactive cfg hact k]
    rfl

/-- C3 counterexample: carry-down active (two layers, option `-n`), default
zero fill, destination point uncovered at layer 0 with a nonempty candidate
set: the stored layer-0 value is the finite value 0, not a missing value. -/
theorem C3_counterexample :
    carryActive runC3 = true ∧
    (ptsAt runC3 0).npoint = 1 ∧
    evalSel runC3.layer (ptsAt runC3 0).ptsS (ptsAt runC3 0).ptsN 0 = none ∧
    (layerOut runC3 0).vdst 0 = some 0 := by
  decide

/-- C3 witness: the amended fill theorem applied to the concrete run. -/
theorem C3_propagate_down_witness :
    (layerOut runC3 0).vdst 0 =
      if carryActive runC3 = true then
        match lastFinite runC3 0 0 with
        | some w => some w
        | none => initFill runC3.layer.nanfill
      else initFill runC3.layer.nanfill :=
  C3_propagate_down runC3 0 0 (by decide) (by decide) (by decide) (by decide)

/-- C4 (code bug): at `ni = 2`, `nj = 3`, `Y = [10, 20, 30]`, the in-place
row-start spreading loop (lines 363-364) iterates upward and reads slot 2
after having overwritten it, so the point at flat index `j*ni+i = 4` gets
latitude 20 instead of `Y[2] = 30` demanded by the outer-product expansion. -/
theorem C4_inplace_broadcast_eval :
    rectY 2 3 c4Y 4 = 20 ∧ rectYSpec 2 c4Y 4 = 30 ∧
    rectY 2 3 c4Y 4 ≠ rectYSpec 2 c4Y 4 := by
  decide

/-- C5 (code bug): the only mask-related configuration check aborts exactly
when a destination layer-count variable is supplied together with `-t`; when
neither grid supplies one, configuration does not abort, the mask-transfer
block still runs, and the value it stores per point dereferences the absent
source array (`NULL`, modelled as `none`). -/
theorem C5_missing_source_mask_eval :
    transferConfigAborts true true = true ∧
    transferConfigAborts true false = false ∧
    maskTransferRuns true false = true ∧
    maskSrcZ none 0 = none := by
  decide

/-- C6 (amended): the supplied valid-layer-count array is used verbatim, with
no binary normalization: the candidate filter compares the raw entry with the
layer index, so a column whose entry is 1 passes the mask filter at layer 0
but contributes nothing to any candidate set at layers `k ≥ 1`. -/
theorem C6_no_binary_normalization (cfg : LayerCfg) (k : ℕ)
    (vsrc : ℕ → Option ℚ) (st : CollectSt) (i : ℕ) (f : ℕ → ℤ)
    (hf : cfg.nksrc = some f) (h1 : f i = 1) (hk : 1 ≤ k) :
    collectStep cfg k vsrc st i = st ∧ maskRejects cfg.nksrc 0 i = false := by
  have hrej : maskRejects cfg.nksrc k i = true := by
    simp only [maskRejects, hf]
    rw [h1]
    apply decide_eq_true
    exact_mod_cast hk
  constructor
  · unfold collectStep
    by_cases hskip : skipsColumn cfg.skipFirstLast cfg.niSrc i = true
    · rw [if_pos hskip]
    · rw [if_neg hskip, if_pos hrej]
  · simp only [maskRejects, hf]
    rw [h1]
    apply decide_eq_false
    omega

/-- C6 counterexample: for the purely binary mask `{0, 1}` over two columns
and `nk = 3`, the code filter rejects the 1-column already at layer 1, whereas
under the normalization described by the claim (1 replaced by `nk = 3`) the
column would pass through layer 2. -/
theorem C6_counterexample :
    (∀ i < 2, c6mask i = 0 ∨ c6mask i = 1) ∧
    maskRejects (some c6mask) 1 1 = true ∧
    maskRejects (some (specNormalizeBinary 3 2 c6mask)) 1 1 = false := by
  decide

/-- C6 witness: the verbatim-use theorem applied at a concrete configuration
and column. -/
theorem C6_no_binary_normalization_witness :
    collectStep { cfgBase with nksrc := some c6mask } 1 (fun _ => some 4)
      ⟨[], [], false, false, 0⟩ 1 = ⟨[], [], false, false, 0⟩ ∧
    maskRejects (some c6mask) 0 1 = false :=
  C6_no_binary_normalization { cfgBase with nksrc := some c6mask } 1
    (fun _ => some 4) ⟨[], [], false, false, 0⟩ 1 c6mask rfl (by decide) (by decide)

/-- C7 (amended): an empty candidate set for a layer is not an error: the
layer is still produced, but every destination point receives the base fill
initialization (0, or missing under `-m`) — the carry-down value is not
applied even when one exists — the carry buffer is left untouched, and the
fill counters of the layer stay 0. -/
theorem C7_empty_layer (cfg : RunCfg) (k : ℕ) (h : (ptsAt cfg k).npoint = 0) :
    (∀ i, (layerOut cfg k).vdst i = initFill cfg.layer.nanfill) ∧
    (layerOut cfg k).carry = carryAt cfg k ∧
    (layerOut cfg k).npointFilled = 0 ∧
    (layerOut cfg k).npointDst = 0 := by
  unfold layerOut
  rw [processLayer_empty cfg.layer k (cfg.vsrcAt k) (carryAt cfg k) h]
  exact ⟨fun i => rfl, rfl, rfl, rfl⟩

/-- C7 counterexample: carry-down active, layer 0 covered with value 7,
layer 1 with an empty candidate set: the layer-1 output at the point is the
base fill 0, not the policy (carried) value 7, and no fill counter moves. -/
theorem C7_counterexample :
    (ptsAt runC7 1).npoint = 0 ∧
    carryEntry (carryAt runC7 1) 0 = some 7 ∧
    (layerOut runC7 1).vdst 0 = some 0 ∧
    (layerOut runC7 1).vdst 0 ≠ some 7 ∧
    (layerOut runC7 1).npointFilled = 0 := by
  decide

/-- C7 witness: the empty-layer theorem applied to the concrete run. -/
theorem C7_empty_layer_witness :
    (layerOut runC7 1).vdst 0 = initFill runC7.layer.nanfill ∧
    (layerOut runC7 1).npointDst = 0 :=
  ⟨(C7_empty_layer runC7 1 (by decide)).1 0,
   (C7_empty_layer runC7 1 (by decide)).2.2.2⟩

/-- C8 (confirmed): every destination count produced by mask transfer lies in
`[0, nk]` provided each finite interpolated value lies in the band
`(-3/2, nk + 1/2)` (in particular whenever it is a convex combination of
source counts in `[0, nk]`, even after a slight undershoot or overshoot), and
every point whose hemisphere interpolation is non-finite keeps the
calloc-initialized count 0. -/
theorem C8_mask_transfer_range (nijDst : ℕ) (ydst : ℕ → ℚ)
    (evalS evalN : ℕ → Option ℚ) (nk : ℕ)
    (hband : ∀ i z, (if 0 < ydst i then evalS i else evalN i) = some z →
      -(3 / 2) < z ∧ z < (nk : ℚ) + 1 / 2) (i : ℕ) :
    0 ≤ maskLoop nijDst ydst evalS evalN i ∧
    maskLoop nijDst ydst evalS evalN i ≤ (nk : ℤ) ∧
    ((if 0 < ydst i then evalS i else evalN i) = none →
      maskLoop nijDst ydst evalS evalN i = 0) := by
  have hb := maskFold_bounds ydst evalS evalN nk hband (List.range nijDst)
    (fun _ => 0) (fun j => ⟨le_refl 0, Int.natCast_nonneg nk⟩) i
  exact ⟨hb.1, hb.2,
    fun hnone => maskFold_uncovered ydst evalS evalN i hnone (List.range nijDst)
      (fun _ => 0)⟩

/-- C8 witness: a destination with one point whose south interpolation
slightly undershoots zero (value `-1/4`), at `nk = 2`. -/
theorem C8_mask_transfer_range_witness :
    0 ≤ maskLoop 1 (fun _ => 1) (fun _ => some (-(1 : ℚ) / 4))
      (fun _ => some 10) 0 ∧
    maskLoop 1 (fun _ => 1) (fun _ => some (-(1 : ℚ) / 4))
      (fun _ => some 10) 0 ≤ (2 : ℤ) :=
  ⟨(C8_mask_transfer_range 1 (fun _ => 1) (fun _ => some (-(1 : ℚ) / 4))
      (fun _ => some 10) 2
      (fun i z hz => by
        rw [if_pos (by norm_num : (0 : ℚ) < 1)] at hz
        cases hz
        constructor <;> norm_num) 0).1,
   (C8_mask_transfer_range 1 (fun _ => 1) (fun _ => some (-(1 : ℚ) / 4))
      (fun _ => some 10) 2
      (fun i z hz => by
        rw [if_pos (by norm_num : (0 : ℚ) < 1)] at hz
        cases hz
        constructor <;> norm_num) 0).2.1⟩

/-- C9 (confirmed): with a destination layer-count array present and
`k ≥ nkdst[i]`, the gate of point `i` is closed: the point keeps the fill
initialization of the layer (0, or missing under `-m`) even when a carried
value exists, its carry entry is untouched, and the count of evaluated
destination points is exactly the number of open gates (0 on an empty layer),
to which `i` does not contribute. -/
theorem C9_dst_mask_gating (cfg : LayerCfg) (k : ℕ) (vsrc : ℕ → Option ℚ)
    (carryIn : Option (ℕ → Option ℚ)) (f : ℕ → ℤ) (i : ℕ)
    (hf : cfg.nkdst = some f) (hk : f i ≤ (k : ℤ)) :
    gateOpen cfg k i = false ∧
    (processLayer cfg k vsrc carryIn).vdst i = initFill cfg.nanfill ∧
    carryEntry (processLayer cfg k vsrc carryIn).carry i = carryEntry carryIn i ∧
    (processLayer cfg k vsrc carryIn).npointDst =
      (if (collect cfg k vsrc).npoint = 0 then 0
       else (List.range cfg.nijDst).countP (fun j => gateOpen cfg k j)) := by
  have hg : gateOpen cfg k i = false := by
    simp only [gateOpen, hf]
    apply decide_eq_false
    omega
  have hcl := processLayer_closed cfg k vsrc carryIn i hg
  exact ⟨hg, hcl.1, hcl.2, processLayer_npointDst cfg k vsrc carryIn⟩

/-- C9 witness: the gating theorem at a concrete masked configuration with a
carried value 9 present. -/
theorem C9_dst_mask_gating_witness :
    gateOpen cfgC9 1 0 = false ∧
    (processLayer cfgC9 1 (fun _ => some 3) (some fun _ => some 9)).vdst 0 =
      initFill cfgC9.nanfill ∧
    carryEntry (processLayer cfgC9 1 (fun _ => some 3)
      (some fun _ => some 9)).carry 0 = carryEntry (some fun _ => some 9) 0 :=
  ⟨(C9_dst_mask_gating cfgC9 1 (fun _ => some 3) (some fun _ => some 9)
      (fun _ => 0) 0 rfl (by decide)).1,
   (C9_dst_mask_gating cfgC9 1 (fun _ => some 3) (some fun _ => some 9)
      (fun _ => 0) 0 rfl (by decide)).2.1,
   (C9_dst_mask_gating cfgC9 1 (fun _ => some 3) (some fun _ => some 9)
      (fun _ => 0) 0 rfl (by decide)).2.2.1⟩

/-- C10 (confirmed): a destination grid with two 1-dimensional coordinates is
classified solely by comparing their lengths: unequal lengths give the
rectangular topology with extents `(ni, nj) = (len1, len0)`, equal lengths
give the unstructured topology with `nj = 0` — independent of the field
dimensions, so a square structured destination grid is always classified as
unstructured. -/
theorem C10_dst_classification (len0 len1 : ℕ) :
    (len0 ≠ len1 → classifyDst1d len0 len1 = GridType.rect ∧
      dstDims1d len0 len1 = (len1, len0)) ∧
    (len0 = len1 → classifyDst1d len0 len1 = GridType.vect ∧
      dstDims1d len0 len1 = (len0, 0)) := by
  constructor
  · intro h
    constructor
    · rw [classifyDst1d, if_pos h]
    · rw [dstDims1d, if_pos h]
  · intro h
    constructor
    · rw [classifyDst1d, if_neg (by rw [h]; exact fun hc => hc rfl)]
    · rw [dstDims1d, if_neg (by rw [h]; exact fun hc => hc rfl)]

/-- C10 witness: a square 4x4 destination grid is classified unstructured
with `nj = 0`; a 2x3 one rectangular. -/
theorem C10_dst_classification_witness :
    (classifyDst1d 4 4 = GridType.vect ∧ dstDims1d 4 4 = (4, 0)) ∧
    (classifyDst1d 2 3 = GridType.rect ∧ dstDims1d 2 3 = (3, 2)) :=
  ⟨(C10_dst_classification 4 4).2 rfl,
   (C10_dst_classification 2 3).1 (by decide)⟩

end Regrid
